import Mathlib

/-!
Verification of the intrusive reference-counted pointer utility
(`RefCountedBase` / `IntrusiveRefCntPtr`, file `include/IRC.h`).

The embedding models the heap as a list of slots.  Each slot either holds a
live counted object (carrying its `ref_cnt` field, the counter of
`RefCountedBase`) or is freed (`obj = none`).  Every slot additionally carries
an instrumentation field `dcount` counting how many times `delete` ran on it,
mirroring a counted-destruction instrumented test object.  A handle
(`IntrusiveRefCntPtr`) is its `Obj` field: `none` for a null pointer or
`some p` for a pointer to slot `p`.  Operations that hit an assertion failure
or undefined behaviour (releasing a zero counter, touching a freed or invalid
slot) return `none`.
-/

namespace IRC

/-- The state of a live counted object: its embedded reference counter
(`ref_cnt` in `RefCountedBase`). -/
structure Obj where
  ref_cnt : Nat
deriving Repr, DecidableEq

/-- A heap slot: `obj = some o` means the object is alive with counter state
`o`; `obj = none` means the slot was freed by `delete`.  `dcount` counts
destructor runs (instrumentation only). -/
structure Slot where
  obj : Option Obj
  dcount : Nat
deriving Repr, DecidableEq

/-- The heap: a list of slots, addressed by index. -/
structure Heap where
  slots : List Slot
deriving Repr, DecidableEq

/-- Embedding of `RefCountedBase::Retain` on the object at address `p`:
`++ref_cnt`.  Fails (`none`) when `p` is invalid or the object was already
freed (use after free, undefined behaviour). -/
def Heap.retainPtr (h : Heap) (p : Nat) : Option Heap :=
  match h.slots[p]? with
  | some ⟨some o, d⟩ => some ⟨h.slots.set p ⟨some ⟨o.ref_cnt + 1⟩, d⟩⟩
  | _ => none

/-- Embedding of `RefCountedBase::Release` on the object at address `p`:
`assert(ref_cnt > 0); if (--ref_cnt == 0) delete ...`.  The assertion failure
(counter already zero) and use after free both yield `none`. -/
def Heap.releasePtr (h : Heap) (p : Nat) : Option Heap :=
  match h.slots[p]? with
  | some ⟨some o, d⟩ =>
    if o.ref_cnt = 0 then none
    else if o.ref_cnt = 1 then some ⟨h.slots.set p ⟨none, d + 1⟩⟩
    else some ⟨h.slots.set p ⟨some ⟨o.ref_cnt - 1⟩, d⟩⟩
  | _ => none

/-- The slot at address `p`, if the address is in range. -/
def Heap.slotAt (h : Heap) (p : Nat) : Option Slot :=
  h.slots[p]?

/-- The object at address `p` (`none` when freed or out of range). -/
def Heap.objAt (h : Heap) (p : Nat) : Option Obj :=
  match h.slots[p]? with
  | some s => s.obj
  | none => none

/-- A handle value: the `Obj` member of `IntrusiveRefCntPtr` — `none` is the
null pointer, `some p` points to heap slot `p`. -/
abbrev Handle := Option Nat

/-- The private member `IntrusiveRefCntPtr::retain`:
`if (Obj) IntrusiveRefCntPtrInfo::retain(Obj)`. -/
def Handle.retain (a : Handle) (hp : Heap) : Option Heap :=
  match a with
  | none => some hp
  | some p => hp.retainPtr p

/-- The private member `IntrusiveRefCntPtr::release`:
`if (Obj) IntrusiveRefCntPtrInfo::release(Obj)`. -/
def Handle.release (a : Handle) (hp : Heap) : Option Heap :=
  match a with
  | none => some hp
  | some p => hp.releasePtr p

/-- The default constructor `IntrusiveRefCntPtr() : Obj(nullptr)`. -/
def mkDefault : Handle := none

/-- The raw-pointer constructor `IntrusiveRefCntPtr(T* obj) : Obj(obj)
{ retain(); }`.  Returns the new handle and updated heap. -/
def mkFromRaw (p : Handle) (hp : Heap) : Option (Handle × Heap) :=
  (Handle.retain p hp).map (fun h1 => (p, h1))

/-- The copy constructor `IntrusiveRefCntPtr(const IntrusiveRefCntPtr& S)
: Obj(S.Obj) { retain(); }`. -/
def copyCtor (s : Handle) (hp : Heap) : Option (Handle × Heap) :=
  (Handle.retain s hp).map (fun h1 => (s, h1))

/-- The converting copy constructor `template<class X>
IntrusiveRefCntPtr(const IntrusiveRefCntPtr<X>& S) : Obj(S.get())
{ retain(); }`.  In the embedding, pointer values are untyped, so the body
coincides with the plain copy constructor. -/
def copyConvCtor (s : Handle) (hp : Heap) : Option (Handle × Heap) :=
  (Handle.retain s hp).map (fun h1 => (s, h1))

/-- The move constructor `IntrusiveRefCntPtr(IntrusiveRefCntPtr&& S)
: Obj(S.Obj) { S.Obj = nullptr; }`.  Returns (new handle, updated source)
and the (untouched) heap; it can never fail. -/
def moveCtor (s : Handle) (hp : Heap) : (Handle × Handle) × Heap :=
  ((s, none), hp)

/-- The converting move constructor `template<class X>
IntrusiveRefCntPtr(IntrusiveRefCntPtr<X>&& S) : Obj(S.get()) { S.Obj = 0; }`. -/
def moveConvCtor (s : Handle) (hp : Heap) : (Handle × Handle) × Heap :=
  ((s, none), hp)

/-- The destructor `~IntrusiveRefCntPtr() { release(); }`. -/
def dtor (s : Handle) (hp : Heap) : Option Heap :=
  Handle.release s hp

/-- Embedding of `operator=(IntrusiveRefCntPtr S) { swap(S); return *this; }`.
The parameter `S` is passed by value, so at the call site a copy of the
right-hand side `b` is constructed (calling `retain` if `b` is non-null);
after `swap(S)`, `S` holds the old contents of `*this` (`a`), which `S`'s
destructor then releases.  Result: the new value of `*this` and the heap. -/
def assign (a b : Handle) (hp : Heap) : Option (Handle × Heap) :=
  match Handle.retain b hp with
  | none => none
  | some h1 =>
    match Handle.release a h1 with
    | none => none
    | some h2 => some (b, h2)

/-- Embedding of `swap(IntrusiveRefCntPtr& other)`: the three-line pointer exchange.
Returns (new value of `*this`, new value of `other`) and the untouched heap. -/
def swapH (a b : Handle) (hp : Heap) : (Handle × Handle) × Heap :=
  ((b, a), hp)

/-- Embedding of `reset() { release(); Obj = nullptr; }`. -/
def reset (a : Handle) (hp : Heap) : Option (Handle × Heap) :=
  (Handle.release a hp).map (fun h1 => (none, h1))

/-- Embedding of `resetWithoutRelease() { Obj = 0; }` — never touches the heap. -/
def resetWithoutRelease (_a : Handle) (hp : Heap) : Handle × Heap :=
  (none, hp)

/-- Embedding of `get() const { return Obj; }`. -/
def get (a : Handle) : Option Nat := a

/-- Embedding of `operator bool() const { return Obj; }`. -/
def toBool (a : Handle) : Bool := a.isSome

/-- Embedding of `operator==` on two handles: `A.get() == B.get()` (pointer identity). -/
def eqHH (a b : Handle) : Bool := a = b

/-!
Trace system for the whole-lifecycle claim: a single counted object, a
growing family of handle variables, and a sequence of handle operations.
A handle variable slot is `none` once the handle itself has been destroyed,
`some h` while the handle is alive with value `h`.
-/

/-- A handle variable: `none` after the handle's destructor ran. -/
abbrev HSlot := Option Handle

/-- System state: the heap (holding the single counted object at address 0)
and the list of handle variables created so far. -/
structure Sys where
  heap : Heap
  handles : List HSlot
deriving Repr, DecidableEq

/-- The handle operations of the public interface, acting on handle
variables by index.  `fromRaw true` constructs from a raw pointer to the
object, `fromRaw false` from a null raw pointer. -/
inductive Op where
  | fromRaw (nonNull : Bool)
  | copy (i : Nat)
  | copyConv (i : Nat)
  | mv (i : Nat)
  | mvConv (i : Nat)
  | assignOp (i j : Nat)
  | swapOp (i j : Nat)
  | resetOp (i : Nat)
  | dtorOp (i : Nat)
deriving Repr, DecidableEq

/-- Read handle variable `i`; fails when out of range or already destroyed. -/
def getH (s : Sys) (i : Nat) : Option Handle :=
  match s.handles[i]? with
  | some (some h) => some h
  | _ => none

/-- One step of the system: run a handle operation, threading the heap.
`none` signals a contract violation (assertion failure, use after free, or
use of a dead handle variable). -/
def Sys.step (s : Sys) (op : Op) : Option Sys :=
  match op with
  | .fromRaw b =>
    let p : Handle := if b then some 0 else none
    match mkFromRaw p s.heap with
    | some (h, hp) => some ⟨hp, s.handles ++ [some h]⟩
    | none => none
  | .copy i =>
    match getH s i with
    | some hv =>
      match copyCtor hv s.heap with
      | some (h, hp) => some ⟨hp, s.handles ++ [some h]⟩
      | none => none
    | none => none
  | .copyConv i =>
    match getH s i with
    | some hv =>
      match copyConvCtor hv s.heap with
      | some (h, hp) => some ⟨hp, s.handles ++ [some h]⟩
      | none => none
    | none => none
  | .mv i =>
    match getH s i with
    | some hv =>
      let r := moveCtor hv s.heap
      some ⟨r.2, (s.handles.set i (some r.1.2)) ++ [some r.1.1]⟩
    | none => none
  | .mvConv i =>
    match getH s i with
    | some hv =>
      let r := moveConvCtor hv s.heap
      some ⟨r.2, (s.handles.set i (some r.1.2)) ++ [some r.1.1]⟩
    | none => none
  | .assignOp i j =>
    match getH s i, getH s j with
    | some a, some b =>
      match assign a b s.heap with
      | some (a2, hp) => some ⟨hp, s.handles.set i (some a2)⟩
      | none => none
    | _, _ => none
  | .swapOp i j =>
    match getH s i, getH s j with
    | some a, some b =>
      let r := swapH a b s.heap
      some ⟨r.2, (s.handles.set i (some r.1.1)).set j (some r.1.2)⟩
    | _, _ => none
  | .resetOp i =>
    match getH s i with
    | some a =>
      match reset a s.heap with
      | some (a2, hp) => some ⟨hp, s.handles.set i (some a2)⟩
      | none => none
    | none => none
  | .dtorOp i =>
    match getH s i with
    | some a =>
      match dtor a s.heap with
      | some hp => some ⟨hp, s.handles.set i none⟩
      | none => none
    | none => none

/-- Run a sequence of operations. -/
def Sys.run (s : Sys) : List Op → Option Sys
  | [] => some s
  | op :: ops =>
    match s.step op with
    | some s' => s'.run ops
    | none => none

/-- Initial state: the freshly created object at address 0 with counter 0
(`RefCountedBase()` initializes `ref_cnt` to 0), no handles yet. -/
def init : Sys := ⟨⟨[⟨some ⟨0⟩, 0⟩]⟩, []⟩

/-- Does this handle variable currently own a reference to the object? -/
def ownsB (h : HSlot) : Bool := h == some (some 0)

/-- Number of live handle variables owning a reference to the object. -/
def numOwning (s : Sys) : Nat := s.handles.countP ownsB

/-- Number of destructor runs on the object (instrumentation). -/
def dcnt (s : Sys) : Nat := (s.heap.slots.headD ⟨none, 0⟩).dcount

/-- Has the object been destroyed? -/
def destroyed (s : Sys) : Bool := (s.heap.slots.headD ⟨some ⟨0⟩, 0⟩).obj.isNone

/-- Operations whose execution contains a `release()` call: assignment (the
by-value temporary's destructor), `reset()` and handle destruction. -/
def isReleaseOp : Op → Bool
  | .assignOp _ _ => true
  | .resetOp _ => true
  | .dtorOp _ => true
  | _ => false

/-- Well-formedness of a handle variable: dead, or null, or pointing to the
single object at address 0. -/
def hOK (h : HSlot) : Bool :=
  h == none || h == some none || h == some (some 0)

/-- System invariant: every handle variable is well formed, and the single
heap slot either holds the live object whose counter equals the number of
owning handles (destructor never ran), or is freed with no owners left
(destructor ran exactly once). -/
def Inv (s : Sys) : Prop :=
  (∀ h ∈ s.handles, hOK h = true) ∧
  (s.heap = ⟨[⟨some ⟨numOwning s⟩, 0⟩]⟩ ∨
   (s.heap = ⟨[⟨none, 1⟩]⟩ ∧ numOwning s = 0))

/-!  List helper lemmas for counting owners across `set` and `append`. -/

theorem countP_set_add {α : Type} (p : α → Bool) (l : List α) (i : Nat)
    (a b : α) (h : l[i]? = some a) :
    (l.set i b).countP p + (if p a then 1 else 0)
      = l.countP p + (if p b then 1 else 0) := by
  induction l generalizing i with
  | nil => simp at h
  | cons x xs ih =>
    cases i with
    | zero =>
      simp at h
      subst h
      simp [List.countP_cons]
      omega
    | succ n =>
      simp at h
      have := ih n h
      simp [List.countP_cons]
      omega

theorem set_getElem?_eq {α : Type} (l : List α) (i : Nat) (a : α)
    (h : l[i]? = some a) : l.set i a = l := by
  induction l generalizing i with
  | nil => simp at h
  | cons x xs ih =>
    cases i with
    | zero => simp at h; subst h; simp
    | succ n => simp at h; simp [ih n h]

theorem mem_of_getElem?_eq {α : Type} {l : List α} {i : Nat} {a : α}
    (h : l[i]? = some a) : a ∈ l := by
  induction l generalizing i with
  | nil => simp at h
  | cons x xs ih =>
    cases i with
    | zero => simp at h; subst h; exact List.mem_cons_self x xs
    | succ n => simp at h; exact List.mem_cons_of_mem x (ih h)

theorem one_le_countP {α : Type} (p : α → Bool) (l : List α) (i : Nat)
    (a : α) (h : l[i]? = some a) (hp : p a = true) : 1 ≤ l.countP p := by
  have hm : a ∈ l := mem_of_getElem?_eq h
  have : 0 < l.countP p := List.countP_pos_iff.2 ⟨a, hm, hp⟩
  omega

theorem forall_mem_set {α : Type} {P : α → Prop} {l : List α} {i : Nat}
    {b : α} (hl : ∀ x ∈ l, P x) (hb : P b) : ∀ x ∈ l.set i b, P x := by
  intro x hx
  rcases List.mem_or_eq_of_mem_set hx with h | h
  · exact hl x h
  · exact h ▸ hb

/-!  Unfolding lemmas for `retainPtr` / `releasePtr` at a known slot. -/

theorem retainPtr_eq (hp : Heap) (p c d : Nat)
    (h : hp.slots[p]? = some ⟨some ⟨c⟩, d⟩) :
    hp.retainPtr p = some ⟨hp.slots.set p ⟨some ⟨c + 1⟩, d⟩⟩ := by
  simp only [Heap.retainPtr, h]

theorem releasePtr_after_retain (hp : Heap) (p c d : Nat)
    (h : hp.slots[p]? = some ⟨some ⟨c⟩, d⟩) (hc : 0 < c) :
    Heap.releasePtr ⟨hp.slots.set p ⟨some ⟨c + 1⟩, d⟩⟩ p = some hp := by
  have hlen : p < hp.slots.length := (List.getElem?_eq_some.mp h).1
  have hget : (hp.slots.set p ⟨some ⟨c + 1⟩, d⟩)[p]? = some ⟨some ⟨c + 1⟩, d⟩ := by
    rw [List.getElem?_set_self]
    simpa using hlen
  simp only [Heap.releasePtr, hget]
  have h0 : ¬ (c + 1 = 0) := by omega
  have h1 : ¬ (c + 1 = 1) := by omega
  simp only [h0, if_false, h1]
  have : c + 1 - 1 = c := by omega
  rw [this, List.set_set, set_getElem?_eq _ _ _ h]

/-- C2: the operation `Release()` on an object whose counter is `c > 0` decrements the
counter by exactly 1 and frees the object (running the destructor once)
if and only if the decremented value is 0; `Release()` with the counter
already at 0 trips the fatal assertion (modelled as `none`), not a
recoverable result. -/
theorem C2_release_semantics (hp : Heap) (p c d : Nat)
    (h : hp.slotAt p = some ⟨some ⟨c⟩, d⟩) :
    (0 < c →
      hp.releasePtr p =
        some ⟨hp.slots.set p
          (if c - 1 = 0 then ⟨none, d + 1⟩ else ⟨some ⟨c - 1⟩, d⟩)⟩) ∧
    (c = 0 → hp.releasePtr p = none) := by
  simp only [Heap.slotAt] at h
  constructor
  · intro hc
    simp only [Heap.releasePtr, h]
    have h0 : ¬ (c = 0) := by omega
    by_cases h1 : c = 1
    · subst h1
      simp
    · have h1' : ¬ (c - 1 = 0) := by omega
      simp only [h0, if_false, h1, h1', if_false]
  · intro hc
    subst hc
    simp [Heap.releasePtr, h]

/-- C2 witness: concrete evaluation at a one-slot heap with counter 2. -/
theorem C2_release_semantics_witness :
    (Heap.slotAt ⟨[⟨some ⟨2⟩, 0⟩]⟩ 0 = some ⟨some ⟨2⟩, 0⟩) ∧
    ((0 < 2 →
      Heap.releasePtr ⟨[⟨some ⟨2⟩, 0⟩]⟩ 0 =
        some ⟨(⟨[⟨some ⟨2⟩, 0⟩]⟩ : Heap).slots.set 0
          (if 2 - 1 = 0 then ⟨none, 0 + 1⟩ else ⟨some ⟨2 - 1⟩, 0⟩)⟩) ∧
    (2 = 0 → Heap.releasePtr ⟨[⟨some ⟨2⟩, 0⟩]⟩ 0 = none)) :=
  ⟨by decide, C2_release_semantics ⟨[⟨some ⟨2⟩, 0⟩]⟩ 0 2 0 (by decide)⟩

/-- C3: constructing a handle from a raw pointer to a live counted object
calls `Retain` exactly once — the counter goes from `c` to `c + 1` and
nothing else in the heap changes — and yields a handle holding that pointer;
constructing from a null raw pointer yields a null handle and leaves the
heap completely untouched (no acquire, no release). -/
theorem C3_fromRaw (hp : Heap) (p c d : Nat)
    (h : hp.slotAt p = some ⟨some ⟨c⟩, d⟩) :
    mkFromRaw (some p) hp = some (some p, ⟨hp.slots.set p ⟨some ⟨c + 1⟩, d⟩⟩) ∧
    mkFromRaw none hp = some (none, hp) := by
  simp only [Heap.slotAt] at h
  constructor
  · simp [mkFromRaw, Handle.retain, retainPtr_eq hp p c d h]
  · rfl

/-- C3 witness: concrete evaluation at a one-slot heap with counter 0. -/
theorem C3_fromRaw_witness :
    mkFromRaw (some 0) ⟨[⟨some ⟨0⟩, 0⟩]⟩ =
      some (some 0, ⟨(⟨[⟨some ⟨0⟩, 0⟩]⟩ : Heap).slots.set 0 ⟨some ⟨0 + 1⟩, 0⟩⟩) ∧
    mkFromRaw none ⟨[⟨some ⟨0⟩, 0⟩]⟩ = some (none, ⟨[⟨some ⟨0⟩, 0⟩]⟩) :=
  C3_fromRaw ⟨[⟨some ⟨0⟩, 0⟩]⟩ 0 0 0 (by decide)

/-- C4: copy-constructing a non-null handle (object counter `c`, with
`c > 0` since the copied handle itself owns one reference) yields a handle
to the same object with the counter at `c + 1`, and destroying the copy
restores the heap exactly — counter back to `c`, object not destroyed: the
net effect of copy-then-destroy is zero. -/
theorem C4_copy_then_destroy (hp : Heap) (p c d : Nat)
    (h : hp.slotAt p = some ⟨some ⟨c⟩, d⟩) (hc : 0 < c) :
    copyCtor (some p) hp =
      some (some p, ⟨hp.slots.set p ⟨some ⟨c + 1⟩, d⟩⟩) ∧
    dtor (some p) ⟨hp.slots.set p ⟨some ⟨c + 1⟩, d⟩⟩ = some hp := by
  simp only [Heap.slotAt] at h
  refine ⟨?_, ?_⟩
  · simp [copyCtor, Handle.retain, retainPtr_eq hp p c d h]
  · simp only [dtor, Handle.release, releasePtr_after_retain hp p c d h hc]

/-- C4 witness: concrete evaluation at a one-slot heap with counter 1. -/
theorem C4_copy_then_destroy_witness :
    copyCtor (some 0) ⟨[⟨some ⟨1⟩, 0⟩]⟩ =
      some (some 0, ⟨(⟨[⟨some ⟨1⟩, 0⟩]⟩ : Heap).slots.set 0 ⟨some ⟨1 + 1⟩, 0⟩⟩) ∧
    dtor (some 0) ⟨(⟨[⟨some ⟨1⟩, 0⟩]⟩ : Heap).slots.set 0 ⟨some ⟨1 + 1⟩, 0⟩⟩ =
      some ⟨[⟨some ⟨1⟩, 0⟩]⟩ :=
  C4_copy_then_destroy ⟨[⟨some ⟨1⟩, 0⟩]⟩ 0 1 0 (by decide) (by decide)

/-- C5: move construction (same-type or converting) transfers the stored
pointer to the new handle, nulls the source — whose `bool` conversion then
reports `false` — and leaves the heap, hence every object's counter,
completely untouched: no acquire, no release. -/
theorem C5_move (s : Handle) (hp : Heap) :
    moveCtor s hp = ((s, none), hp) ∧
    moveConvCtor s hp = ((s, none), hp) ∧
    toBool (moveCtor s hp).1.2 = false ∧
    (∀ p, (moveCtor s hp).2.slotAt p = hp.slotAt p) :=
  ⟨rfl, rfl, rfl, fun _ => rfl⟩

/-- Composite described by the spec for assignment: construct a temporary
copy of the right-hand side, swap it with the left-hand side, then destroy
the temporary (releasing what the left-hand side previously held). -/
def copySwapDestroy (a b : Handle) (hp : Heap) : Option (Handle × Heap) :=
  match copyCtor b hp with
  | none => none
  | some (t, h1) =>
    match swapH a t h1 with
    | ((a2, t2), h2) =>
      match dtor t2 h2 with
      | none => none
      | some h3 => some (a2, h3)

/-- C6: the assignment `operator=` (by-value parameter plus `swap`) is extensionally equal
to the copy-and-swap composite — construct a temporary copy of `b`
(performing any needed acquire), swap it with `a`, destroy the temporary
(releasing `a`'s former content).  Moreover, if constructing the replacement
copy fails, the whole assignment fails without producing any new state, so
the caller's `a` and heap are untouched (strong exception safety). -/
theorem C6_assign_copy_swap (a b : Handle) (hp : Heap) :
    assign a b hp = copySwapDestroy a b hp ∧
    (copyCtor b hp = none → assign a b hp = none) := by
  constructor
  · cases hr : Handle.retain b hp with
    | none => simp [assign, copySwapDestroy, copyCtor, hr]
    | some h1 =>
      cases hrel : Handle.release a h1 with
      | none => simp [assign, copySwapDestroy, copyCtor, swapH, dtor, hr, hrel]
      | some h2 => simp [assign, copySwapDestroy, copyCtor, swapH, dtor, hr, hrel]
  · intro hfail
    simp only [copyCtor] at hfail
    cases hr : Handle.retain b hp with
    | none => simp only [assign, hr]
    | some h1 => rw [hr] at hfail; simp at hfail

/-- C6 witness: concrete evaluation where the right-hand side dangles, so
constructing the replacement copy fails and the assignment fails whole. -/
theorem C6_assign_copy_swap_witness :
    (assign (some 0) (some 1) ⟨[⟨some ⟨1⟩, 0⟩]⟩ =
      copySwapDestroy (some 0) (some 1) ⟨[⟨some ⟨1⟩, 0⟩]⟩) ∧
    (copyCtor (some 1) ⟨[⟨some ⟨1⟩, 0⟩]⟩ = none →
      assign (some 0) (some 1) ⟨[⟨some ⟨1⟩, 0⟩]⟩ = none) :=
  C6_assign_copy_swap (some 0) (some 1) ⟨[⟨some ⟨1⟩, 0⟩]⟩

/-- C7: the member `swap` exchanges which object each handle references and leaves the
heap — in particular both objects' counters and destruction counts —
completely unchanged: no acquire, no release. -/
theorem C7_swap (a b : Handle) (hp : Heap) :
    swapH a b hp = ((b, a), hp) ∧
    (∀ p, (swapH a b hp).2.slotAt p = hp.slotAt p) :=
  ⟨rfl, fun _ => rfl⟩

/-- C8: calling `resetWithoutRelease()` nulls the handle (its `bool` conversion
reports `false` afterwards) and performs no release: every heap slot —
counter and destruction count alike — is exactly as before, so the
referenced object is not destroyed by this call. -/
theorem C8_resetWithoutRelease (a : Handle) (hp : Heap) :
    resetWithoutRelease a hp = (none, hp) ∧
    toBool (resetWithoutRelease a hp).1 = false ∧
    (∀ p, (resetWithoutRelease a hp).2.slotAt p = hp.slotAt p) :=
  ⟨rfl, rfl, fun _ => rfl⟩

/-- C9: self-assignment is safe.  For a non-null handle on an object with
counter `c > 0` (the handle's own reference makes it positive), `a = a`
first acquires through the by-value parameter (counter `c + 1`) and only
then releases the old content (back to `c`), so the handle still references
the same object, the heap is exactly restored, and the object is never
destroyed; `a = a` on a null handle is a complete no-op. -/
theorem C9_self_assign (hp : Heap) (p c d : Nat)
    (h : hp.slotAt p = some ⟨some ⟨c⟩, d⟩) (hc : 0 < c) :
    assign (some p) (some p) hp = some (some p, hp) ∧
    assign none none hp = some (none, hp) := by
  simp only [Heap.slotAt] at h
  constructor
  · simp only [assign, Handle.retain, Handle.release, retainPtr_eq hp p c d h,
      releasePtr_after_retain hp p c d h hc]
  · rfl

/-- C9 witness: concrete evaluation at a one-slot heap with counter 1. -/
theorem C9_self_assign_witness :
    assign (some 0) (some 0) ⟨[⟨some ⟨1⟩, 0⟩]⟩ =
      some (some 0, ⟨[⟨some ⟨1⟩, 0⟩]⟩) ∧
    assign none none ⟨[⟨some ⟨1⟩, 0⟩]⟩ = some (none, ⟨[⟨some ⟨1⟩, 0⟩]⟩) :=
  C9_self_assign ⟨[⟨some ⟨1⟩, 0⟩]⟩ 0 1 0 (by decide) (by decide)

/-!  Supporting lemmas for the lifecycle invariant. -/

theorem getH_eq_some {s : Sys} {i : Nat} {hv : Handle} (h : getH s i = some hv) :
    s.handles[i]? = some (some hv) := by
  unfold getH at h
  cases hg : s.handles[i]? with
  | none => rw [hg] at h; exact absurd h (by simp)
  | some x =>
    cases x with
    | none => rw [hg] at h; exact absurd h (by simp)
    | some y => rw [hg] at h; simp at h; rw [h]

theorem hv_shape {s : Sys} {i : Nat} {hv : Handle}
    (hall : ∀ h ∈ s.handles, hOK h = true) (h : getH s i = some hv) :
    hv = none ∨ hv = some 0 := by
  have hg := getH_eq_some h
  have hm := mem_of_getElem?_eq hg
  have hok := hall _ hm
  simp [hOK] at hok
  exact hok

theorem countP_append_one {α : Type} (p : α → Bool) (l : List α) (x : α) :
    (l ++ [x]).countP p = l.countP p + (if p x then 1 else 0) := by
  simp [List.countP_append, List.countP_cons]

theorem forall_mem_append_one {α : Type} {P : α → Prop} {l : List α} {x : α}
    (hl : ∀ y ∈ l, P y) (hx : P x) : ∀ y ∈ l ++ [x], P y := by
  intro y hy
  rcases List.mem_append.mp hy with h | h
  · exact hl y h
  · simp at h; exact h ▸ hx

theorem numOwning_pos {s : Sys} {i : Nat}
    (h : s.handles[i]? = some (some (some 0))) : 1 ≤ numOwning s :=
  one_le_countP ownsB s.handles i _ h rfl

theorem dcnt_le_one {s : Sys} (hinv : Inv s) : dcnt s ≤ 1 := by
  rcases hinv.2 with h | ⟨h, _⟩ <;> simp [dcnt, h]

theorem destroyed_iff_dcnt {s : Sys} (hinv : Inv s) :
    destroyed s = true ↔ dcnt s = 1 := by
  rcases hinv.2 with h | ⟨h, _⟩ <;> simp [destroyed, dcnt, h]

theorem Inv_init : Inv init := by
  constructor
  · intro h hm; simp [init] at hm
  · left; rfl

theorem step_sound {s s' : Sys} {op : Op} (hinv : Inv s)
    (hstep : s.step op = some s') :
    Inv s' ∧
    (dcnt s' = dcnt s + 1 ↔
      (isReleaseOp op = true ∧ numOwning s = 1 ∧ numOwning s' = 0)) := by
  obtain ⟨hall, hheap⟩ := hinv
  cases op with
  | fromRaw b =>
    cases b with
    | false =>
      simp [Sys.step, mkFromRaw, Handle.retain] at hstep
      subst hstep
      have hnum : numOwning ⟨s.heap, s.handles ++ [some none]⟩ = numOwning s := by
        simp [numOwning, countP_append_one, ownsB]
      refine ⟨⟨forall_mem_append_one hall (by decide), ?_⟩, ?_⟩
      · rcases hheap with hh | ⟨hh, hn⟩
        · left; rw [hnum, hh]
        · right; rw [hnum]; exact ⟨hh, hn⟩
      · simp [dcnt, isReleaseOp]
    | true =>
      rcases hheap with hh | ⟨hh, hn⟩
      · simp [Sys.step, mkFromRaw, Handle.retain, Heap.retainPtr, hh] at hstep
        subst hstep
        have hnum : numOwning ⟨⟨[⟨some ⟨numOwning s + 1⟩, 0⟩]⟩,
            s.handles ++ [some (some 0)]⟩ = numOwning s + 1 := by
          simp [numOwning, countP_append_one, ownsB]
        refine ⟨⟨forall_mem_append_one hall (by decide), Or.inl ?_⟩, ?_⟩
        · rw [hnum]
        · simp [dcnt, hh, isReleaseOp]
      · simp [Sys.step, mkFromRaw, Handle.retain, Heap.retainPtr, hh] at hstep
  | copy i =>
    cases hg : getH s i with
    | none => simp [Sys.step, hg] at hstep
    | some hv =>
      rcases hv_shape hall hg with rfl | rfl
      · simp [Sys.step, hg, copyCtor, Handle.retain] at hstep
        subst hstep
        have hnum : numOwning ⟨s.heap, s.handles ++ [some none]⟩ = numOwning s := by
          simp [numOwning, countP_append_one, ownsB]
        refine ⟨⟨forall_mem_append_one hall (by decide), ?_⟩, ?_⟩
        · rcases hheap with hh | ⟨hh, hn⟩
          · left; rw [hnum, hh]
          · right; rw [hnum]; exact ⟨hh, hn⟩
        · simp [dcnt, isReleaseOp]
      · rcases hheap with hh | ⟨hh, hn⟩
        · simp [Sys.step, hg, copyCtor, Handle.retain, Heap.retainPtr, hh] at hstep
          subst hstep
          have hnum : numOwning ⟨⟨[⟨some ⟨numOwning s + 1⟩, 0⟩]⟩,
              s.handles ++ [some (some 0)]⟩ = numOwning s + 1 := by
            simp [numOwning, countP_append_one, ownsB]
          refine ⟨⟨forall_mem_append_one hall (by decide), Or.inl ?_⟩, ?_⟩
          · rw [hnum]
          · simp [dcnt, hh, isReleaseOp]
        · simp [Sys.step, hg, copyCtor, Handle.retain, Heap.retainPtr, hh] at hstep
  | copyConv i =>
    cases hg : getH s i with
    | none => simp [Sys.step, hg] at hstep
    | some hv =>
      rcases hv_shape hall hg with rfl | rfl
      · simp [Sys.step, hg, copyConvCtor, Handle.retain] at hstep
        subst hstep
        have hnum : numOwning ⟨s.heap, s.handles ++ [some none]⟩ = numOwning s := by
          simp [numOwning, countP_append_one, ownsB]
        refine ⟨⟨forall_mem_append_one hall (by decide), ?_⟩, ?_⟩
        · rcases hheap with hh | ⟨hh, hn⟩
          · left; rw [hnum, hh]
          · right; rw [hnum]; exact ⟨hh, hn⟩
        · simp [dcnt, isReleaseOp]
      · rcases hheap with hh | ⟨hh, hn⟩
        · simp [Sys.step, hg, copyConvCtor, Handle.retain, Heap.retainPtr, hh] at hstep
          subst hstep
          have hnum : numOwning ⟨⟨[⟨some ⟨numOwning s + 1⟩, 0⟩]⟩,
              s.handles ++ [some (some 0)]⟩ = numOwning s + 1 := by
            simp [numOwning, countP_append_one, ownsB]
          refine ⟨⟨forall_mem_append_one hall (by decide), Or.inl ?_⟩, ?_⟩
          · rw [hnum]
          · simp [dcnt, hh, isReleaseOp]
        · simp [Sys.step, hg, copyConvCtor, Handle.retain, Heap.retainPtr, hh] at hstep
  | mv i =>
    cases hg : getH s i with
    | none => simp [Sys.step, hg] at hstep
    | some hv =>
      simp [Sys.step, hg, moveCtor] at hstep
      subst hstep
      have hset := countP_set_add ownsB s.handles i (some hv) (some none)
        (getH_eq_some hg)
      have hok : hOK (some hv) = true := hall _ (mem_of_getElem?_eq (getH_eq_some hg))
      have hnum : numOwning ⟨s.heap, (s.handles.set i (some none)) ++ [some hv]⟩
          = numOwning s := by
        rcases hv_shape hall hg with rfl | rfl <;>
          simp [numOwning, countP_append_one, ownsB] at hset ⊢ <;> omega
      refine ⟨⟨forall_mem_append_one (forall_mem_set hall (by decide)) hok, ?_⟩, ?_⟩
      · rcases hheap with hh | ⟨hh, hn⟩
        · left; rw [hnum, hh]
        · right; rw [hnum]; exact ⟨hh, hn⟩
      · simp [dcnt, isReleaseOp]
  | mvConv i =>
    cases hg : getH s i with
    | none => simp [Sys.step, hg] at hstep
    | some hv =>
      simp [Sys.step, hg, moveConvCtor] at hstep
      subst hstep
      have hset := countP_set_add ownsB s.handles i (some hv) (some none)
        (getH_eq_some hg)
      have hok : hOK (some hv) = true := hall _ (mem_of_getElem?_eq (getH_eq_some hg))
      have hnum : numOwning ⟨s.heap, (s.handles.set i (some none)) ++ [some hv]⟩
          = numOwning s := by
        rcases hv_shape hall hg with rfl | rfl <;>
          simp [numOwning, countP_append_one, ownsB] at hset ⊢ <;> omega
      refine ⟨⟨forall_mem_append_one (forall_mem_set hall (by decide)) hok, ?_⟩, ?_⟩
      · rcases hheap with hh | ⟨hh, hn⟩
        · left; rw [hnum, hh]
        · right; rw [hnum]; exact ⟨hh, hn⟩
      · simp [dcnt, isReleaseOp]
  | assignOp i j =>
    cases hgi : getH s i with
    | none => simp [Sys.step, hgi] at hstep
    | some a =>
      cases hgj : getH s j with
      | none => simp [Sys.step, hgi, hgj] at hstep
      | some b =>
        rcases hv_shape hall hgj with rfl | rfl
        · rcases hv_shape hall hgi with rfl | rfl
          · -- a = none, b = none
            simp [Sys.step, hgi, hgj, assign, Handle.retain, Handle.release] at hstep
            subst hstep
            have hset := countP_set_add ownsB s.handles i (some none) (some none)
              (getH_eq_some hgi)
            have hnum : numOwning ⟨s.heap, s.handles.set i (some none)⟩
                = numOwning s := by
              simp [numOwning, ownsB] at hset ⊢; omega
            refine ⟨⟨forall_mem_set hall (by decide), ?_⟩, ?_⟩
            · rcases hheap with hh | ⟨hh, hn⟩
              · left; rw [hnum, hh]
              · right; rw [hnum]; exact ⟨hh, hn⟩
            · simp [dcnt, isReleaseOp, hnum]; omega
          · -- a = some 0, b = none
            rcases hheap with hh | ⟨hh, hn⟩
            · have hpos := numOwning_pos (getH_eq_some hgi)
              have hcase : numOwning s = 1 ∨ 2 ≤ numOwning s := by omega
              rcases hcase with hn1 | hn2
              · rw [hn1] at hh
                simp [Sys.step, hgi, hgj, assign, Handle.retain, Handle.release,
                  Heap.releasePtr, hh] at hstep
                subst hstep
                have hset := countP_set_add ownsB s.handles i (some (some 0))
                  (some none) (getH_eq_some hgi)
                have hz : numOwning ⟨⟨[⟨none, 1⟩]⟩, s.handles.set i (some none)⟩
                    = 0 := by
                  simp [ownsB] at hset
                  simp only [numOwning] at hn1 ⊢
                  omega
                refine ⟨⟨forall_mem_set hall (by decide), Or.inr ⟨rfl, hz⟩⟩, ?_⟩
                simp [dcnt, hh, isReleaseOp, hn1, hz]
              · have h0 : ¬ (numOwning s = 0) := by omega
                have h1 : ¬ (numOwning s = 1) := by omega
                simp [Sys.step, hgi, hgj, assign, Handle.retain, Handle.release,
                  Heap.releasePtr, hh, h0, h1] at hstep
                subst hstep
                have hset := countP_set_add ownsB s.handles i (some (some 0))
                  (some none) (getH_eq_some hgi)
                have hnum : numOwning ⟨⟨[⟨some ⟨numOwning s - 1⟩, 0⟩]⟩,
                    s.handles.set i (some none)⟩ = numOwning s - 1 := by
                  simp [numOwning, ownsB] at hset ⊢; omega
                refine ⟨⟨forall_mem_set hall (by decide), Or.inl ?_⟩, ?_⟩
                · rw [hnum]
                · simp [dcnt, hh, isReleaseOp, hnum]; omega
            · exact absurd (numOwning_pos (getH_eq_some hgi)) (by omega)
        · rcases hheap with hh | ⟨hh, hn⟩
          · have hposb := numOwning_pos (getH_eq_some hgj)
            rcases hv_shape hall hgi with rfl | rfl
            · -- a = none, b = some 0
              simp [Sys.step, hgi, hgj, assign, Handle.retain, Handle.release,
                Heap.retainPtr, hh] at hstep
              subst hstep
              have hset := countP_set_add ownsB s.handles i (some none)
                (some (some 0)) (getH_eq_some hgi)
              have hnum : numOwning ⟨⟨[⟨some ⟨numOwning s + 1⟩, 0⟩]⟩,
                  s.handles.set i (some (some 0))⟩ = numOwning s + 1 := by
                simp [numOwning, ownsB] at hset ⊢; omega
              refine ⟨⟨forall_mem_set hall (by decide), Or.inl ?_⟩, ?_⟩
              · rw [hnum]
              · simp [dcnt, hh, isReleaseOp, hnum]
            · -- a = some 0, b = some 0
              have h0 : ¬ (numOwning s + 1 = 0) := by omega
              have h1 : ¬ (numOwning s + 1 = 1) := by omega
              simp [Sys.step, hgi, hgj, assign, Handle.retain, Handle.release,
                Heap.retainPtr, Heap.releasePtr, hh, h0, h1] at hstep
              subst hstep
              have hset := countP_set_add ownsB s.handles i (some (some 0))
                (some (some 0)) (getH_eq_some hgi)
              have hnum : numOwning ⟨⟨[⟨some ⟨numOwning s⟩, 0⟩]⟩,
                  s.handles.set i (some (some 0))⟩ = numOwning s := by
                simp [numOwning, ownsB] at hset ⊢; omega
              refine ⟨⟨forall_mem_set hall (by decide), Or.inl ?_⟩, ?_⟩
              · rw [hnum]
              · simp [dcnt, hh, isReleaseOp, hnum]; omega
          · exact absurd (numOwning_pos (getH_eq_some hgj)) (by omega)
  | swapOp i j =>
    cases hgi : getH s i with
    | none => simp [Sys.step, hgi] at hstep
    | some a =>
      cases hgj : getH s j with
      | none => simp [Sys.step, hgi, hgj] at hstep
      | some b =>
        simp [Sys.step, hgi, hgj, swapH] at hstep
        subst hstep
        have hoka : hOK (some a) = true := hall _ (mem_of_getElem?_eq (getH_eq_some hgi))
        have hokb : hOK (some b) = true := hall _ (mem_of_getElem?_eq (getH_eq_some hgj))
        have hnum : numOwning ⟨s.heap, (s.handles.set i (some b)).set j (some a)⟩
            = numOwning s := by
          by_cases hij : i = j
          · subst hij
            have hab : a = b := by
              rw [hgi] at hgj; exact Option.some.inj hgj
            subst hab
            rw [List.set_set, set_getElem?_eq _ _ _ (getH_eq_some hgi)]
          · have h1 := countP_set_add ownsB s.handles i (some a) (some b)
              (getH_eq_some hgi)
            have hj2 : (s.handles.set i (some b))[j]? = some (some b) := by
              rw [List.getElem?_set_ne hij]; exact getH_eq_some hgj
            have h2 := countP_set_add ownsB (s.handles.set i (some b)) j
              (some b) (some a) hj2
            simp only [numOwning]; omega
        refine ⟨⟨forall_mem_set (forall_mem_set hall hokb) hoka, ?_⟩, ?_⟩
        · rcases hheap with hh | ⟨hh, hn⟩
          · left; rw [hnum, hh]
          · right; rw [hnum]; exact ⟨hh, hn⟩
        · simp [dcnt, isReleaseOp]
  | resetOp i =>
    cases hg : getH s i with
    | none => simp [Sys.step, hg] at hstep
    | some a =>
      rcases hv_shape hall hg with rfl | rfl
      · simp [Sys.step, hg, reset, Handle.release] at hstep
        subst hstep
        have hset := countP_set_add ownsB s.handles i (some none) (some none)
          (getH_eq_some hg)
        have hnum : numOwning ⟨s.heap, s.handles.set i (some none)⟩
            = numOwning s := by
          simp [numOwning, ownsB] at hset ⊢; omega
        refine ⟨⟨forall_mem_set hall (by decide), ?_⟩, ?_⟩
        · rcases hheap with hh | ⟨hh, hn⟩
          · left; rw [hnum, hh]
          · right; rw [hnum]; exact ⟨hh, hn⟩
        · simp [dcnt, isReleaseOp, hnum]; omega
      · rcases hheap with hh | ⟨hh, hn⟩
        · have hpos := numOwning_pos (getH_eq_some hg)
          have hcase : numOwning s = 1 ∨ 2 ≤ numOwning s := by omega
          rcases hcase with hn1 | hn2
          · rw [hn1] at hh
            simp [Sys.step, hg, reset, Handle.release, Heap.releasePtr, hh] at hstep
            subst hstep
            have hset := countP_set_add ownsB s.handles i (some (some 0))
              (some none) (getH_eq_some hg)
            have hz : numOwning ⟨⟨[⟨none, 1⟩]⟩, s.handles.set i (some none)⟩
                = 0 := by
              simp [ownsB] at hset
              simp only [numOwning] at hn1 ⊢
              omega
            refine ⟨⟨forall_mem_set hall (by decide), Or.inr ⟨rfl, hz⟩⟩, ?_⟩
            simp [dcnt, hh, isReleaseOp, hn1, hz]
          · have h0 : ¬ (numOwning s = 0) := by omega
            have h1 : ¬ (numOwning s = 1) := by omega
            simp [Sys.step, hg, reset, Handle.release, Heap.releasePtr,
              hh, h0, h1] at hstep
            subst hstep
            have hset := countP_set_add ownsB s.handles i (some (some 0))
              (some none) (getH_eq_some hg)
            have hnum : numOwning ⟨⟨[⟨some ⟨numOwning s - 1⟩, 0⟩]⟩,
                s.handles.set i (some none)⟩ = numOwning s - 1 := by
              simp [numOwning, ownsB] at hset ⊢; omega
            refine ⟨⟨forall_mem_set hall (by decide), Or.inl ?_⟩, ?_⟩
            · rw [hnum]
            · simp [dcnt, hh, isReleaseOp, hnum]; omega
        · exact absurd (numOwning_pos (getH_eq_some hg)) (by omega)
  | dtorOp i =>
    cases hg : getH s i with
    | none => simp [Sys.step, hg] at hstep
    | some a =>
      rcases hv_shape hall hg with rfl | rfl
      · simp [Sys.step, hg, dtor, Handle.release] at hstep
        subst hstep
        have hset := countP_set_add ownsB s.handles i (some none) none
          (getH_eq_some hg)
        have hnum : numOwning ⟨s.heap, s.handles.set i none⟩ = numOwning s := by
          simp [numOwning, ownsB] at hset ⊢; omega
        refine ⟨⟨forall_mem_set hall (by decide), ?_⟩, ?_⟩
        · rcases hheap with hh | ⟨hh, hn⟩
          · left; rw [hnum, hh]
          · right; rw [hnum]; exact ⟨hh, hn⟩
        · simp [dcnt, isReleaseOp, hnum]; omega
      · rcases hheap with hh | ⟨hh, hn⟩
        · have hpos := numOwning_pos (getH_eq_some hg)
          have hcase : numOwning s = 1 ∨ 2 ≤ numOwning s := by omega
          rcases hcase with hn1 | hn2
          · rw [hn1] at hh
            simp [Sys.step, hg, dtor, Handle.release, Heap.releasePtr, hh] at hstep
            subst hstep
            have hset := countP_set_add ownsB s.handles i (some (some 0)) none
              (getH_eq_some hg)
            have hz : numOwning ⟨⟨[⟨none, 1⟩]⟩, s.handles.set i none⟩ = 0 := by
              simp [ownsB] at hset
              simp only [numOwning] at hn1 ⊢
              omega
            refine ⟨⟨forall_mem_set hall (by decide), Or.inr ⟨rfl, hz⟩⟩, ?_⟩
            simp [dcnt, hh, isReleaseOp, hn1, hz]
          · have h0 : ¬ (numOwning s = 0) := by omega
            have h1 : ¬ (numOwning s = 1) := by omega
            simp [Sys.step, hg, dtor, Handle.release, Heap.releasePtr,
              hh, h0, h1] at hstep
            subst hstep
            have hset := countP_set_add ownsB s.handles i (some (some 0)) none
              (getH_eq_some hg)
            have hnum : numOwning ⟨⟨[⟨some ⟨numOwning s - 1⟩, 0⟩]⟩,
                s.handles.set i none⟩ = numOwning s - 1 := by
              simp [numOwning, ownsB] at hset ⊢; omega
            refine ⟨⟨forall_mem_set hall (by decide), Or.inl ?_⟩, ?_⟩
            · rw [hnum]
            · simp [dcnt, hh, isReleaseOp, hnum]; omega
        · exact absurd (numOwning_pos (getH_eq_some hg)) (by omega)

theorem run_sound {ops : List Op} {s s' : Sys} (hinv : Inv s)
    (h : s.run ops = some s') : Inv s' := by
  induction ops generalizing s with
  | nil =>
    simp [Sys.run] at h
    exact h ▸ hinv
  | cons op ops ih =>
    simp only [Sys.run] at h
    cases hs : s.step op with
    | none => rw [hs] at h; exact absurd h (by simp)
    | some s1 =>
      rw [hs] at h
      exact ih (step_sound hinv hs).1 h

/-- C1: along every successful sequence of handle operations
(construct-from-raw, copy, copy-convert, move, move-convert, assign, swap,
reset, destroy) starting from the single counted object with counter 0 and
no handles, the object's destructor has run at most once; it has run exactly
once precisely when the object is destroyed; and at every next step,
the destructor runs at that step if and only if the step is an operation
containing a `release()` call (assignment, reset, or handle destruction)
that makes the count of owning handles reach zero. -/
theorem C1_destroyed_once_at_last_release (ops : List Op) (s : Sys)
    (h : init.run ops = some s) :
    dcnt s ≤ 1 ∧
    (destroyed s = true ↔ dcnt s = 1) ∧
    (∀ op s', s.step op = some s' →
      (dcnt s' = dcnt s + 1 ↔
        (isReleaseOp op = true ∧ numOwning s = 1 ∧ numOwning s' = 0))) := by
  have hinv := run_sound Inv_init h
  exact ⟨dcnt_le_one hinv, destroyed_iff_dcnt hinv,
    fun op s' hs => (step_sound hinv hs).2⟩

/-- C1 witness: the scenario of the spec — construct a handle from the raw
object (counter 1), copy it (counter 2), destroy the original (counter 1),
destroy the copy (counter 0, object destroyed exactly once). -/
theorem C1_destroyed_once_at_last_release_witness :
    init.run [Op.fromRaw true, Op.copy 0, Op.dtorOp 0, Op.dtorOp 1] =
      some ⟨⟨[⟨none, 1⟩]⟩, [none, none]⟩ ∧
    (dcnt ⟨⟨[⟨none, 1⟩]⟩, [none, none]⟩ ≤ 1 ∧
    (destroyed ⟨⟨[⟨none, 1⟩]⟩, [none, none]⟩ = true ↔
      dcnt ⟨⟨[⟨none, 1⟩]⟩, [none, none]⟩ = 1) ∧
    (∀ op s', Sys.step ⟨⟨[⟨none, 1⟩]⟩, [none, none]⟩ op = some s' →
      (dcnt s' = dcnt ⟨⟨[⟨none, 1⟩]⟩, [none, none]⟩ + 1 ↔
        (isReleaseOp op = true ∧
         numOwning ⟨⟨[⟨none, 1⟩]⟩, [none, none]⟩ = 1 ∧ numOwning s' = 0)))) :=
  ⟨by decide,
   C1_destroyed_once_at_last_release
     [Op.fromRaw true, Op.copy 0, Op.dtorOp 0, Op.dtorOp 1]
     ⟨⟨[⟨none, 1⟩]⟩, [none, none]⟩ (by decide)⟩

/-- C10: the member `reset()` is null-safe and idempotent: on a null handle it performs
no release and is a complete no-op (handle stays null, heap untouched), and
for any handle, running `reset()` twice produces exactly the same outcome as
running it once — the second call acts on an already-null handle. -/
theorem C10_reset (a : Handle) (hp : Heap) :
    reset none hp = some (none, hp) ∧
    (reset a hp).bind (fun r => reset r.1 r.2) = reset a hp := by
  constructor
  · rfl
  · cases a with
    | none => rfl
    | some p =>
      cases hr : hp.releasePtr p with
      | none => simp [reset, Handle.release, hr]
      | some h1 => simp [reset, Handle.release, hr]

end IRC
